import Mathlib

/-!
Verification of `go-toolkit-cmd`'s batch pull-request maker
(`internal/mkpr/make_pull_request.go`), shallowly embedded in Lean.

The GitHub client (`github.Client`) and the local filesystem are external
collaborators; they are modelled as an `Env` of pure oracle functions, one per
remote endpoint the code consumes, each returning `Except GoErr result` (Go's
`(result, error)` pairs; in the embedding a successful call always carries a
value, so the source's defensive `ref == nil` check after `getRef` is
unreachable). Every remote call an execution issues is also recorded in an
explicit trace (`List RemoteCall`) so that claims about which calls are or are
not made, and in which order, can be stated.

Go `string` is Lean `String`, Go `[]byte` file contents are `String` (the code
immediately converts with `string(content)`), Go errors are `String` messages,
`(T, error)` is `Except String T`, and nil-able slices are `List`.
`time.Now()` (the commit author date) is wall-clock input with no bearing on
any claim and is not modelled.
-/

/-- Go `error` values, modelled as their message strings. -/
abbrev GoErr := String

/-- The authenticated user, as returned by `client.Users.Get(ctx, "")`.
`GetName`/`GetEmail` return the zero value `""` when unset, so plain `String`
fields model them exactly. -/
structure GoUser where
  name : String
  email : String
  deriving DecidableEq, Repr

/-- `github.Reference`: a branch pointer. `ref` models `Reference.Ref`, `sha`
models `Reference.Object.SHA`. -/
structure GitRef where
  ref : String
  sha : String
  deriving DecidableEq, Repr

/-- `github.Tree`, identified by its SHA. -/
structure GitTree where
  sha : String
  deriving DecidableEq, Repr

/-- One entry of the tree handed to `Git.CreateTree`: the source builds
`github.TreeEntry{Path, Type, Content, Mode}`. -/
structure TreeEntry where
  path : String
  type : String
  content : String
  mode : String
  deriving DecidableEq, Repr

/-- The inner `github.Commit` object (only its SHA matters to the code). -/
structure GitCommitData where
  sha : String
  deriving DecidableEq, Repr

/-- `github.RepositoryCommit` as returned by `Repositories.GetCommit`: an outer
SHA plus an inner `Commit` object. -/
structure RepositoryCommit where
  sha : String
  commit : GitCommitData
  deriving DecidableEq, Repr

/-- The commit-creation payload built in `pushCommit`: author identity, commit
message, tree and parents (`github.Commit{Author, Message, Tree, Parents}`).
The author `Date` is `time.Now()` and is not modelled. -/
structure CommitPayload where
  authorName : String
  authorEmail : String
  message : String
  treeSha : String
  parents : List GitCommitData
  deriving DecidableEq, Repr

/-- The commit object returned by `Git.CreateCommit`. -/
structure GitCommit where
  sha : String
  deriving DecidableEq, Repr

/-- `github.NewPullRequest` as built in `createPR`. -/
structure NewPullRequest where
  title : String
  head : String
  base : String
  body : String
  maintainerCanModify : Bool
  deriving DecidableEq, Repr

/-- The pull request returned by `PullRequests.Create`; `htmlURL` models
`PullRequest.HTMLURL` (`GetHTMLURL` yields `""` when unset). -/
structure GoPullRequest where
  htmlURL : String
  deriving DecidableEq, Repr

/-- One remote API call, as observed on the wire: the endpoint and the
arguments the code passes it. `usersGet` is `Users.Get(ctx, "")`. -/
inductive RemoteCall where
  | usersGet : RemoteCall
  | gitGetRef (owner repo : String) (refName : String) : RemoteCall
  | gitCreateRef (owner repo : String) (newRef : GitRef) : RemoteCall
  | gitCreateTree (owner repo : String) (baseSha : String)
      (entries : List TreeEntry) : RemoteCall
  | repoGetCommit (owner repo : String) (sha : String) : RemoteCall
  | gitCreateCommit (owner repo : String) (payload : CommitPayload) : RemoteCall
  | gitUpdateRef (owner repo : String) (ref : GitRef) (force : Bool) : RemoteCall
  | prCreate (owner repo : String) (pr : NewPullRequest) : RemoteCall
  deriving DecidableEq, Repr

/-- The external world: one pure oracle per consumed endpoint, plus the local
filesystem `fs` (`none` = unreadable path). Responses depend only on the
arguments; the trace records what was actually asked. -/
structure Env where
  usersGet : Except GoErr GoUser
  gitGetRef : String → String → String → Except GoErr GitRef
  gitCreateRef : String → String → GitRef → Except GoErr GitRef
  fs : String → Option String
  gitCreateTree : String → String → String → List TreeEntry → Except GoErr GitTree
  repoGetCommit : String → String → String → Except GoErr RepositoryCommit
  gitCreateCommit : String → String → CommitPayload → Except GoErr GitCommit
  gitUpdateRef : String → String → GitRef → Bool → Except GoErr GitRef
  prCreate : String → String → NewPullRequest → Except GoErr GoPullRequest

/-- `mkpr.Destination`: one target repository plus its base branch. -/
structure Destination where
  repository : String
  base : String
  deriving DecidableEq, Repr

/-- `mkpr.BatchPullRequestOption`: the parsed batch description. `authorName`
and `authorEmail` are the unexported fields filled in by `Do`. -/
structure BatchPullRequestOption where
  commitMessage : String
  subject : String
  body : String
  destinations : List Destination
  files : List String
  authorName : String
  authorEmail : String
  head : String
  deriving DecidableEq, Repr

/-- The destination-loop body of `BatchPullRequestOption.validate`: first
destination with an empty base, or a base equal to head, yields the error. -/
def validateDestinations (head : String) : List Destination → Option GoErr
  | [] => none
  | v :: rest =>
    if v.base = "" then
      some ("head branc of destination repository " ++ v.repository ++ " is empty")
    else if head = v.base then
      some ("base branch cannot be the same as head at repository " ++ v.repository)
    else validateDestinations head rest

/-- `BatchPullRequestOption.validate`: `some err` models a non-nil error. -/
def BatchPullRequestOption.validate (b : BatchPullRequestOption) : Option GoErr :=
  if b.head = "" then some "base branch cannot be empty"
  else validateDestinations b.head b.destinations

theorem validateDestinations_eq_none (head : String) (ds : List Destination) :
    validateDestinations head ds = none ↔
      ∀ v ∈ ds, v.base ≠ "" ∧ v.base ≠ head := by
  induction ds with
  | nil => simp [validateDestinations]
  | cons v rest ih =>
    simp only [validateDestinations, List.mem_cons]
    by_cases hb : v.base = ""
    · rw [if_pos hb]
      simp only [reduceCtorEq, false_iff]
      push_neg
      exact ⟨v, Or.inl rfl, fun h => absurd hb h⟩
    · by_cases hh : head = v.base
      · rw [if_neg hb, if_pos hh]
        simp only [reduceCtorEq, false_iff]
        push_neg
        exact ⟨v, Or.inl rfl, fun _ => hh.symm⟩
      · rw [if_neg hb, if_neg hh, ih]
        constructor
        · intro h w hw
          rcases hw with hw | hw
          · subst hw
            exact ⟨hb, fun e => hh e.symm⟩
          · exact h w hw
        · intro h w hw
          exact h w (Or.inr hw)

/-- C5: `validate` fails iff the head branch is empty, or some destination has
an empty base branch, or some destination's base equals the head branch;
otherwise it returns no error. -/
theorem C5_validate_iff (b : BatchPullRequestOption) :
    b.validate ≠ none ↔
      (b.head = "" ∨ ∃ v ∈ b.destinations, v.base = "" ∨ v.base = b.head) := by
  by_cases hh : b.head = ""
  · simp [BatchPullRequestOption.validate, hh]
  · rw [show b.validate = validateDestinations b.head b.destinations from
      if_neg hh]
    simp only [hh, false_or]
    rw [Ne, validateDestinations_eq_none]
    push_neg
    constructor
    · rintro ⟨v, hv, h⟩
      refine ⟨v, hv, ?_⟩
      by_cases hb : v.base = ""
      · exact Or.inl hb
      · exact Or.inr (h hb)
    · rintro ⟨v, hv, h⟩
      refine ⟨v, hv, fun hb => ?_⟩
      rcases h with h | h
      · exact absurd h hb
      · exact h

/-- Go `strings.Split(s, sep)` for the single-character separator used by the
code (`":"`): splits around every occurrence of `c`, keeping empty segments,
and yields `[[]]` on the empty string — never the empty list. -/
def splitOnChar (c : Char) : List Char → List (List Char)
  | [] => [[]]
  | x :: xs =>
    if x = c then [] :: splitOnChar c xs
    else
      match splitOnChar c xs with
      | [] => [[x]]
      | h :: t => (x :: h) :: t

/-- Modelled from Go's standard library: `ioutil.ReadFile` returns the file's
bytes, or a `*PathError` whose message names the opened path. -/
def ioutilReadFile (fs : String → Option String) (path : String) :
    Except GoErr String :=
  match fs path with
  | some b => Except.ok b
  | none => Except.error ("open " ++ path ++ ": no such file or directory")

/-- `mkpr.getFileContent`: splits the file argument on `":"`; one segment is
used as both local and target path, otherwise segment 0 is the local path and
segment 1 the target; reads the local file and returns (target, contents). -/
def getFileContent (fs : String → Option String) (fileArg : String) :
    Except GoErr (String × String) :=
  match (splitOnChar ':' fileArg.data).map (fun l => String.mk l) with
  | [] => Except.error "empty files"
  | [f] =>
    match ioutilReadFile fs f with
    | Except.ok b => Except.ok (f, b)
    | Except.error e => Except.error e
  | f :: t :: _ =>
    match ioutilReadFile fs f with
    | Except.ok b => Except.ok (t, b)
    | Except.error e => Except.error e

theorem splitOnChar_ne_nil (c : Char) (s : List Char) : splitOnChar c s ≠ [] := by
  induction s with
  | nil => simp [splitOnChar]
  | cons x xs ih =>
    rw [splitOnChar]
    by_cases h : x = c
    · simp [h]
    · rw [if_neg h]
      cases hs : splitOnChar c xs with
      | nil => simp
      | cons a b => simp

theorem splitOnChar_of_not_mem (c : Char) (l : List Char) (h : c ∉ l) :
    splitOnChar c l = [l] := by
  induction l with
  | nil => rfl
  | cons x xs ih =>
    rw [splitOnChar]
    have hx : ¬ x = c := fun e => h (e ▸ List.mem_cons_self x xs)
    rw [if_neg hx, ih (fun hm => h (List.mem_cons_of_mem x hm))]

theorem splitOnChar_append_sep (c : Char) (l rest : List Char) (h : c ∉ l) :
    splitOnChar c (l ++ c :: rest) = l :: splitOnChar c rest := by
  induction l with
  | nil => simp [splitOnChar]
  | cons x xs ih =>
    rw [List.cons_append, splitOnChar]
    have hx : ¬ x = c := fun e => h (e ▸ List.mem_cons_self x xs)
    rw [if_neg hx, ih (fun hm => h (List.mem_cons_of_mem x hm))]

/-- A concrete filesystem with one readable file, `"a"`. -/
def fsOneFile : String → Option String := fun p =>
  if p = "a" then some "x" else none

/-- C3, counterexample: on the entry `"a:b:c"` the code returns target `"b"`,
not the claimed entire remainder `"b:c"` — `strings.Split` cuts at every
separator and only segment 1 is used. -/
theorem C3_counterexample :
    getFileContent fsOneFile "a:b:c" = Except.ok ("b", "x") ∧
    ¬ getFileContent fsOneFile "a:b:c" = Except.ok ("b:c", "x") := by
  constructor
  · rfl
  · intro h
    rw [show getFileContent fsOneFile "a:b:c" = Except.ok ("b", "x") from rfl] at h
    simp at h

/-- C3 (amended): an entry with no separator is used as both local and target
path; an entry with separators has local = the segment before the first
separator and target = the segment between the first and second separator
only — text after a second separator is discarded. -/
theorem C3_fileMapping (fs : String → Option String) (l t r : String)
    (hl : ':' ∉ l.data) (ht : ':' ∉ t.data) :
    getFileContent fs l
        = (ioutilReadFile fs l).map (fun b => (l, b)) ∧
    getFileContent fs (l ++ ":" ++ t)
        = (ioutilReadFile fs l).map (fun b => (t, b)) ∧
    getFileContent fs (l ++ ":" ++ t ++ ":" ++ r)
        = (ioutilReadFile fs l).map (fun b => (t, b)) := by
  have hdata2 : (l ++ ":" ++ t).data = l.data ++ ':' :: t.data := by
    simp [String.data_append]
  have hdata3 : (l ++ ":" ++ t ++ ":" ++ r).data
      = l.data ++ ':' :: (t.data ++ ':' :: r.data) := by
    simp [String.data_append]
  refine ⟨?_, ?_, ?_⟩
  · rw [getFileContent, splitOnChar_of_not_mem ':' l.data hl]
    cases hr : ioutilReadFile fs l with
    | ok b => simp [hr, Except.map]
    | error e => simp [hr, Except.map]
  · rw [getFileContent, hdata2, splitOnChar_append_sep ':' l.data t.data hl,
      splitOnChar_of_not_mem ':' t.data ht]
    cases hr : ioutilReadFile fs l with
    | ok b => simp [hr, Except.map]
    | error e => simp [hr, Except.map]
  · rw [getFileContent, hdata3, splitOnChar_append_sep ':' l.data _ hl,
      splitOnChar_append_sep ':' t.data r.data ht]
    cases hr : ioutilReadFile fs l with
    | ok b => simp [hr, Except.map]
    | error e => simp [hr, Except.map]

/-- C3 witness: the amended statement at the spec's own example paths. -/
theorem C3_fileMapping_witness :
    getFileContent fsOneFile "a.txt"
        = (ioutilReadFile fsOneFile "a.txt").map (fun b => ("a.txt", b)) ∧
    getFileContent fsOneFile ("a.txt" ++ ":" ++ "sub/b.txt")
        = (ioutilReadFile fsOneFile "a.txt").map (fun b => ("sub/b.txt", b)) ∧
    getFileContent fsOneFile ("a.txt" ++ ":" ++ "sub/b.txt" ++ ":" ++ "c")
        = (ioutilReadFile fsOneFile "a.txt").map (fun b => ("sub/b.txt", b)) :=
  C3_fileMapping fsOneFile "a.txt" "sub/b.txt" "c" (by decide) (by decide)

/-- `mkpr.pullRequestCreationOptions`: the per-destination job options. -/
structure pullRequestCreationOptions where
  sourceOwner : String
  pullRequestOwner : String
  sourceRepo : String
  baseBranch : String
  commitMessage : String
  commitBranch : String
  pullRequestRepo : String
  pullRequestBranch : String
  pullRequestSubject : String
  pullRequestBody : String
  files : List String
  authorName : String
  authorEmail : String
  deriving DecidableEq, Repr

/-- `pullRequestCommand.getRef`: return the commit branch's reference if the
lookup succeeds; on any lookup error fall back to the base branch's reference
and create the commit branch at its SHA (the create call hardcodes owner
`"mercadolibre"` in the source). The returned list is the trace of issued
remote calls. -/
def pullRequestCommand.getRef (env : Env) (o : pullRequestCreationOptions) :
    Except GoErr GitRef × List RemoteCall :=
  let c1 := RemoteCall.gitGetRef o.sourceOwner o.sourceRepo
      ("refs/heads/" ++ o.commitBranch)
  match env.gitGetRef o.sourceOwner o.sourceRepo ("refs/heads/" ++ o.commitBranch) with
  | Except.ok ref => (Except.ok ref, [c1])
  | Except.error _ =>
    let c2 := RemoteCall.gitGetRef o.sourceOwner o.sourceRepo
        ("refs/heads/" ++ o.baseBranch)
    match env.gitGetRef o.sourceOwner o.sourceRepo ("refs/heads/" ++ o.baseBranch) with
    | Except.error e => (Except.error ("unable to get base ref: " ++ e), [c1, c2])
    | Except.ok baseRef =>
      let newRef : GitRef :=
        { ref := "refs/heads/" ++ o.commitBranch, sha := baseRef.sha }
      (env.gitCreateRef "mercadolibre" o.sourceRepo newRef,
       [c1, c2, RemoteCall.gitCreateRef "mercadolibre" o.sourceRepo newRef])

/-- C2: if the desired branch's lookup succeeds, `getRef` returns that
reference unchanged and issues no create call; if both lookups fail it returns
an error and issues no create call; if only the desired branch's lookup fails
(any error whatsoever) it creates the branch at the base branch's current SHA
and returns the create call's result. -/
theorem C2_getRef (env : Env) (o : pullRequestCreationOptions) :
    (∀ ref, env.gitGetRef o.sourceOwner o.sourceRepo
        ("refs/heads/" ++ o.commitBranch) = Except.ok ref →
      pullRequestCommand.getRef env o =
        (Except.ok ref,
         [RemoteCall.gitGetRef o.sourceOwner o.sourceRepo
            ("refs/heads/" ++ o.commitBranch)]) ∧
      ∀ ow rp nr, RemoteCall.gitCreateRef ow rp nr ∉
        (pullRequestCommand.getRef env o).2) ∧
    (∀ e e2, env.gitGetRef o.sourceOwner o.sourceRepo
        ("refs/heads/" ++ o.commitBranch) = Except.error e →
      env.gitGetRef o.sourceOwner o.sourceRepo
        ("refs/heads/" ++ o.baseBranch) = Except.error e2 →
      pullRequestCommand.getRef env o =
        (Except.error ("unable to get base ref: " ++ e2),
         [RemoteCall.gitGetRef o.sourceOwner o.sourceRepo
            ("refs/heads/" ++ o.commitBranch),
          RemoteCall.gitGetRef o.sourceOwner o.sourceRepo
            ("refs/heads/" ++ o.baseBranch)]) ∧
      ∀ ow rp nr, RemoteCall.gitCreateRef ow rp nr ∉
        (pullRequestCommand.getRef env o).2) ∧
    (∀ e baseRef, env.gitGetRef o.sourceOwner o.sourceRepo
        ("refs/heads/" ++ o.commitBranch) = Except.error e →
      env.gitGetRef o.sourceOwner o.sourceRepo
        ("refs/heads/" ++ o.baseBranch) = Except.ok baseRef →
      pullRequestCommand.getRef env o =
        (env.gitCreateRef "mercadolibre" o.sourceRepo
            { ref := "refs/heads/" ++ o.commitBranch, sha := baseRef.sha },
         [RemoteCall.gitGetRef o.sourceOwner o.sourceRepo
            ("refs/heads/" ++ o.commitBranch),
          RemoteCall.gitGetRef o.sourceOwner o.sourceRepo
            ("refs/heads/" ++ o.baseBranch),
          RemoteCall.gitCreateRef "mercadolibre" o.sourceRepo
            { ref := "refs/heads/" ++ o.commitBranch, sha := baseRef.sha }])) := by
  refine ⟨?_, ?_, ?_⟩
  · intro ref h
    have he : pullRequestCommand.getRef env o =
        (Except.ok ref,
         [RemoteCall.gitGetRef o.sourceOwner o.sourceRepo
            ("refs/heads/" ++ o.commitBranch)]) := by
      unfold pullRequestCommand.getRef
      rw [h]
    refine ⟨he, ?_⟩
    rw [he]
    intro ow rp nr hmem
    simp at hmem
  · intro e e2 h h2
    have he : pullRequestCommand.getRef env o =
        (Except.error ("unable to get base ref: " ++ e2),
         [RemoteCall.gitGetRef o.sourceOwner o.sourceRepo
            ("refs/heads/" ++ o.commitBranch),
          RemoteCall.gitGetRef o.sourceOwner o.sourceRepo
            ("refs/heads/" ++ o.baseBranch)]) := by
      unfold pullRequestCommand.getRef
      rw [h, h2]
    refine ⟨he, ?_⟩
    rw [he]
    intro ow rp nr hmem
    simp at hmem
  · intro e baseRef h h2
    unfold pullRequestCommand.getRef
    rw [h, h2]

/-- A user identity used in concrete test environments. -/
def testUser : GoUser where
  name := "Ada"
  email := "ada@example.com"

/-- A concrete environment in which every remote call succeeds. -/
def envAllOk : Env where
  usersGet := Except.ok testUser
  gitGetRef := fun _ _ r => Except.ok { ref := r, sha := "s0" }
  gitCreateRef := fun _ _ nr => Except.ok nr
  fs := fun p => if p = "a" then some "x" else none
  gitCreateTree := fun _ _ _ _ => Except.ok { sha := "t0" }
  repoGetCommit := fun _ _ sha => Except.ok { sha := sha, commit := { sha := "inner" } }
  gitCreateCommit := fun _ _ _ => Except.ok { sha := "c1" }
  gitUpdateRef := fun _ _ r _ => Except.ok r
  prCreate := fun _ _ _ => Except.ok { htmlURL := "http://pr/1" }

/-- Like `envAllOk` but the commit branch does not exist yet: only
`refs/heads/main` resolves. -/
def envNoBranch : Env :=
  { envAllOk with
    gitGetRef := fun _ _ r =>
      if r = "refs/heads/main" then Except.ok { ref := r, sha := "base0" }
      else Except.error "404 not found" }

/-- A concrete job-options value targeting repository `r1`. -/
def optA : pullRequestCreationOptions where
  sourceOwner := "mercadolibre"
  pullRequestOwner := "mercadolibre"
  sourceRepo := "r1"
  baseBranch := "main"
  commitMessage := "msg"
  commitBranch := "feature/x"
  pullRequestRepo := "r1"
  pullRequestBranch := "main"
  pullRequestSubject := "subj"
  pullRequestBody := "body"
  files := ["a"]
  authorName := "Ada"
  authorEmail := "ada@example.com"

/-- C2 witness: with the commit branch absent and `main` present, `getRef`
creates `refs/heads/feature/x` at `main`'s SHA. -/
theorem C2_getRef_witness :
    pullRequestCommand.getRef envNoBranch optA =
      (envNoBranch.gitCreateRef "mercadolibre" optA.sourceRepo
          { ref := "refs/heads/" ++ optA.commitBranch, sha := "base0" },
       [RemoteCall.gitGetRef optA.sourceOwner optA.sourceRepo
          ("refs/heads/" ++ optA.commitBranch),
        RemoteCall.gitGetRef optA.sourceOwner optA.sourceRepo
          ("refs/heads/" ++ optA.baseBranch),
        RemoteCall.gitCreateRef "mercadolibre" optA.sourceRepo
          { ref := "refs/heads/" ++ optA.commitBranch, sha := "base0" }]) :=
  (C2_getRef envNoBranch optA).2.2 "404 not found"
    { ref := "refs/heads/main", sha := "base0" } rfl rfl

/-- The file-loading loop of `pullRequestCommand.getTree`: one `TreeEntry` per
file argument — path = target name, type `"blob"`, inline content, mode
`"100644"` — stopping at the first read error. -/
def loadEntries (fs : String → Option String) :
    List String → Except GoErr (List TreeEntry)
  | [] => Except.ok []
  | fileArg :: rest =>
    match getFileContent fs fileArg with
    | Except.error e => Except.error e
    | Except.ok fc =>
      match loadEntries fs rest with
      | Except.error e => Except.error e
      | Except.ok es =>
        Except.ok
          ({ path := fc.1, type := "blob", content := fc.2, mode := "100644" } :: es)

/-- `pullRequestCommand.getTree`: load the files, then request one new tree
rooted at the reference's current commit SHA. -/
def pullRequestCommand.getTree (env : Env) (o : pullRequestCreationOptions)
    (ref : GitRef) : Except GoErr GitTree × List RemoteCall :=
  match loadEntries env.fs o.files with
  | Except.error e => (Except.error e, [])
  | Except.ok entries =>
    (env.gitCreateTree o.sourceOwner o.sourceRepo ref.sha entries,
     [RemoteCall.gitCreateTree o.sourceOwner o.sourceRepo ref.sha entries])

/-- The local path of a file argument: the segment before the first `":"`. -/
def localPathOf (fileArg : String) : String :=
  String.mk ((splitOnChar ':' fileArg.data).headI)

/-- The tree entry built for one loaded file (target path, blob contents). -/
def mkTreeEntry (v : String × String) : TreeEntry :=
  { path := v.1, type := "blob", content := v.2, mode := "100644" }

theorem getFileContent_error_eq (fs : String → Option String) (fa : String)
    (e : GoErr) (h : getFileContent fs fa = Except.error e) :
    e = "open " ++ localPathOf fa ++ ": no such file or directory" := by
  cases hsp : splitOnChar ':' fa.data with
  | nil => exact absurd hsp (splitOnChar_ne_nil ':' fa.data)
  | cons l0 rests =>
    have hloc : localPathOf fa = String.mk l0 := by
      simp [localPathOf, hsp]
    rw [hloc]
    cases hfs : fs (String.mk l0) with
    | some b =>
      cases rests with
      | nil =>
        simp only [getFileContent, ioutilReadFile, hsp, List.map_cons,
          List.map_nil, hfs, reduceCtorEq] at h
      | cons l1 r2 =>
        simp only [getFileContent, ioutilReadFile, hsp, List.map_cons,
          hfs, reduceCtorEq] at h
    | none =>
      cases rests with
      | nil =>
        simp only [getFileContent, ioutilReadFile, hsp, List.map_cons,
          List.map_nil, hfs, Except.error.injEq] at h
        exact h.symm
      | cons l1 r2 =>
        simp only [getFileContent, ioutilReadFile, hsp, List.map_cons,
          hfs, Except.error.injEq] at h
        exact h.symm

theorem loadEntries_ok (fs : String → Option String) (files : List String)
    (vs : List (String × String))
    (h : List.Forall₂ (fun fa v => getFileContent fs fa = Except.ok v) files vs) :
    loadEntries fs files = Except.ok (vs.map mkTreeEntry) := by
  induction h with
  | nil => rfl
  | cons hfa _ ih =>
    rw [loadEntries, hfa, ih]
    rfl

theorem loadEntries_error (fs : String → Option String)
    (pre rest : List String) (fa : String) (e : GoErr)
    (hpre : ∀ p ∈ pre, ∃ v, getFileContent fs p = Except.ok v)
    (hfa : getFileContent fs fa = Except.error e) :
    loadEntries fs (pre ++ fa :: rest) = Except.error e := by
  induction pre with
  | nil =>
    rw [List.nil_append, loadEntries, hfa]
  | cons p pre' ih =>
    rcases hpre p (List.mem_cons_self p pre') with ⟨v, hv⟩
    rw [List.cons_append, loadEntries, hv,
      ih (fun q hq => hpre q (List.mem_cons_of_mem p hq))]

/-- C8: `getTree` loads the listed files in order; if a file is unreadable the
first such file's error is returned, that error names the local path, and no
tree-creation call is issued; if all files load, one tree-creation call is
issued, rooted at the reference's current SHA, with exactly one blob entry per
file mapping (target path, type `"blob"`, the file's bytes inline, mode
`"100644"`). -/
theorem C8_getTree (env : Env) (o : pullRequestCreationOptions) (ref : GitRef) :
    (∀ pre fa rest e, o.files = pre ++ fa :: rest →
      (∀ p ∈ pre, ∃ v, getFileContent env.fs p = Except.ok v) →
      getFileContent env.fs fa = Except.error e →
      pullRequestCommand.getTree env o ref = (Except.error e, []) ∧
      e = "open " ++ localPathOf fa ++ ": no such file or directory") ∧
    (∀ vs, List.Forall₂ (fun fa v => getFileContent env.fs fa = Except.ok v)
        o.files vs →
      pullRequestCommand.getTree env o ref =
        (env.gitCreateTree o.sourceOwner o.sourceRepo ref.sha (vs.map mkTreeEntry),
         [RemoteCall.gitCreateTree o.sourceOwner o.sourceRepo ref.sha
            (vs.map mkTreeEntry)])) := by
  constructor
  · intro pre fa rest e hfiles hpre hfa
    constructor
    · unfold pullRequestCommand.getTree
      rw [hfiles, loadEntries_error env.fs pre rest fa e hpre hfa]
    · exact getFileContent_error_eq env.fs fa e hfa
  · intro vs h
    unfold pullRequestCommand.getTree
    rw [loadEntries_ok env.fs o.files vs h]

/-- C8 witness: with the single readable file `"a"`, `getTree` issues one
tree-creation call with one blob entry carrying `"a"`'s contents. -/
theorem C8_getTree_witness :
    pullRequestCommand.getTree envAllOk optA { ref := "refs/heads/feature/x", sha := "s0" } =
      (envAllOk.gitCreateTree optA.sourceOwner optA.sourceRepo "s0"
          ([("a", "x")].map mkTreeEntry),
       [RemoteCall.gitCreateTree optA.sourceOwner optA.sourceRepo "s0"
          ([("a", "x")].map mkTreeEntry)]) :=
  (C8_getTree envAllOk optA { ref := "refs/heads/feature/x", sha := "s0" }).2
    [("a", "x")] (List.Forall₂.cons rfl List.Forall₂.nil)

/-- The commit payload built in `pushCommit`: author identity and message
from the job options, the new tree, and one parent — the fetched commit whose
inner SHA is first overwritten with the outer one
(`parent.Commit.SHA = parent.SHA`). -/
def pushPayload (o : pullRequestCreationOptions) (tree : GitTree)
    (parent : RepositoryCommit) : CommitPayload :=
  { authorName := o.authorName, authorEmail := o.authorEmail,
    message := o.commitMessage, treeSha := tree.sha,
    parents := [{ parent.commit with sha := parent.sha }] }

/-- `pullRequestCommand.pushCommit`: look up the parent commit at the
reference's current SHA, create the new commit, then advance the reference to
the new commit's SHA with a hardcoded non-force update
(`UpdateRef(..., false)`). -/
def pullRequestCommand.pushCommit (env : Env) (o : pullRequestCreationOptions)
    (ref : GitRef) (tree : GitTree) : Except GoErr Unit × List RemoteCall :=
  match env.repoGetCommit o.sourceOwner o.sourceRepo ref.sha with
  | Except.error e =>
    (Except.error e, [RemoteCall.repoGetCommit o.sourceOwner o.sourceRepo ref.sha])
  | Except.ok parent =>
    match env.gitCreateCommit o.sourceOwner o.sourceRepo (pushPayload o tree parent) with
    | Except.error e =>
      (Except.error ("unable to commit: " ++ e),
       [RemoteCall.repoGetCommit o.sourceOwner o.sourceRepo ref.sha,
        RemoteCall.gitCreateCommit o.sourceOwner o.sourceRepo
          (pushPayload o tree parent)])
    | Except.ok newCommit =>
      match env.gitUpdateRef o.sourceOwner o.sourceRepo
          { ref with sha := newCommit.sha } false with
      | Except.error e =>
        (Except.error e,
         [RemoteCall.repoGetCommit o.sourceOwner o.sourceRepo ref.sha,
          RemoteCall.gitCreateCommit o.sourceOwner o.sourceRepo
            (pushPayload o tree parent),
          RemoteCall.gitUpdateRef o.sourceOwner o.sourceRepo
            { ref with sha := newCommit.sha } false])
      | Except.ok _ =>
        (Except.ok (),
         [RemoteCall.repoGetCommit o.sourceOwner o.sourceRepo ref.sha,
          RemoteCall.gitCreateCommit o.sourceOwner o.sourceRepo
            (pushPayload o tree parent),
          RemoteCall.gitUpdateRef o.sourceOwner o.sourceRepo
            { ref with sha := newCommit.sha } false])

/-- The `github.NewPullRequest` built in `createPR`: head = commit branch,
base = destination branch, maintainers may modify. -/
def newPROf (o : pullRequestCreationOptions) : NewPullRequest :=
  { title := o.pullRequestSubject, head := o.commitBranch,
    base := o.pullRequestBranch, body := o.pullRequestBody,
    maintainerCanModify := true }

/-- `pullRequestCommand.createPR`: open the pull request and return its web
URL. -/
def pullRequestCommand.createPR (env : Env) (o : pullRequestCreationOptions) :
    Except GoErr String × List RemoteCall :=
  match env.prCreate o.pullRequestOwner o.pullRequestRepo (newPROf o) with
  | Except.error e =>
    (Except.error ("unable to create PR: " ++ e),
     [RemoteCall.prCreate o.pullRequestOwner o.pullRequestRepo (newPROf o)])
  | Except.ok pr =>
    (Except.ok pr.htmlURL,
     [RemoteCall.prCreate o.pullRequestOwner o.pullRequestRepo (newPROf o)])

/-- `pullRequestCommand.do`: the per-job four-step sequence
resolve-reference → build-tree → publish-commit → open-PR, stopping at the
first failing step. (The source's defensive `ref == nil` check cannot fire in
the embedding, where a successful `getRef` always carries a reference.) -/
def pullRequestCommand.doJob (env : Env) (o : pullRequestCreationOptions) :
    Except GoErr String × List RemoteCall :=
  match pullRequestCommand.getRef env o with
  | (Except.error e, tr1) => (Except.error e, tr1)
  | (Except.ok ref, tr1) =>
    match pullRequestCommand.getTree env o ref with
    | (Except.error e, tr2) =>
      (Except.error ("unable to create the tree based on the provided files: " ++ e),
       tr1 ++ tr2)
    | (Except.ok tree, tr2) =>
      match pullRequestCommand.pushCommit env o ref tree with
      | (Except.error e, tr3) =>
        (Except.error ("unable to create the commit: " ++ e), tr1 ++ tr2 ++ tr3)
      | (Except.ok _, tr3) =>
        match pullRequestCommand.createPR env o with
        | (res, tr4) => (res, tr1 ++ tr2 ++ tr3 ++ tr4)

/-- `true` unless the call is a force reference update. -/
def RemoteCall.isNonForce : RemoteCall → Bool
  | RemoteCall.gitUpdateRef _ _ _ force => !force
  | _ => true

/-- The pipeline stage a remote call belongs to: 0 = author lookup,
1 = reference resolution, 2 = tree building, 3 = commit publishing,
4 = pull-request creation. -/
def RemoteCall.step : RemoteCall → Nat
  | RemoteCall.usersGet => 0
  | RemoteCall.gitGetRef _ _ _ => 1
  | RemoteCall.gitCreateRef _ _ _ => 1
  | RemoteCall.gitCreateTree _ _ _ _ => 2
  | RemoteCall.repoGetCommit _ _ _ => 3
  | RemoteCall.gitCreateCommit _ _ _ => 3
  | RemoteCall.gitUpdateRef _ _ _ _ => 3
  | RemoteCall.prCreate _ _ _ => 4

theorem getRef_trace_step (env : Env) (o : pullRequestCreationOptions) :
    ∀ c ∈ (pullRequestCommand.getRef env o).2, c.step = 1 := by
  unfold pullRequestCommand.getRef
  cases env.gitGetRef o.sourceOwner o.sourceRepo ("refs/heads/" ++ o.commitBranch) with
  | ok ref => simp [RemoteCall.step]
  | error e =>
    cases env.gitGetRef o.sourceOwner o.sourceRepo ("refs/heads/" ++ o.baseBranch) with
    | ok baseRef => simp [RemoteCall.step]
    | error e2 => simp [RemoteCall.step]

theorem getTree_trace_step (env : Env) (o : pullRequestCreationOptions)
    (ref : GitRef) : ∀ c ∈ (pullRequestCommand.getTree env o ref).2, c.step = 2 := by
  unfold pullRequestCommand.getTree
  cases loadEntries env.fs o.files with
  | ok entries => simp [RemoteCall.step]
  | error e => simp

theorem pushCommit_trace_step (env : Env) (o : pullRequestCreationOptions)
    (ref : GitRef) (tree : GitTree) :
    ∀ c ∈ (pullRequestCommand.pushCommit env o ref tree).2, c.step = 3 := by
  unfold pullRequestCommand.pushCommit
  split
  · simp [RemoteCall.step]
  · split
    · simp [RemoteCall.step]
    · split
      · simp [RemoteCall.step]
      · simp [RemoteCall.step]

theorem createPR_trace_step (env : Env) (o : pullRequestCreationOptions) :
    ∀ c ∈ (pullRequestCommand.createPR env o).2, c.step = 4 := by
  unfold pullRequestCommand.createPR
  split
  · simp [RemoteCall.step]
  · simp [RemoteCall.step]

/-- C4: every remote call issued by `pushCommit` is non-force; in particular
any reference-update call in its trace has `force = false`, targets the job's
owner and repository, and advances the reference to the SHA of a commit that
`Git.CreateCommit` successfully returned — a concurrent advance therefore
makes the update fail rather than overwrite history. -/
theorem C4_pushCommit_nonforce (env : Env) (o : pullRequestCreationOptions)
    (ref : GitRef) (tree : GitTree) :
    (∀ c ∈ (pullRequestCommand.pushCommit env o ref tree).2, c.isNonForce = true) ∧
    (∀ ow rp r frc, RemoteCall.gitUpdateRef ow rp r frc ∈
        (pullRequestCommand.pushCommit env o ref tree).2 →
      frc = false ∧ ow = o.sourceOwner ∧ rp = o.sourceRepo ∧
      ∃ parent newCommit,
        env.gitCreateCommit o.sourceOwner o.sourceRepo (pushPayload o tree parent) =
          Except.ok newCommit ∧
        r = { ref with sha := newCommit.sha }) := by
  constructor
  · unfold pullRequestCommand.pushCommit
    split
    · simp [RemoteCall.isNonForce]
    · split
      · simp [RemoteCall.isNonForce]
      · split
        · simp [RemoteCall.isNonForce]
        · simp [RemoteCall.isNonForce]
  · intro ow rp r frc hmem
    unfold pullRequestCommand.pushCommit at hmem
    split at hmem
    · simp at hmem
    · split at hmem
      · simp at hmem
      · rename_i newCommit heq2
        split at hmem <;>
        · simp only [List.mem_cons, List.not_mem_nil, or_false,
            reduceCtorEq, false_or, RemoteCall.gitUpdateRef.injEq] at hmem
          obtain ⟨how, hrp, hr, hfrc⟩ := hmem
          exact ⟨hfrc, how, hrp, _, newCommit, heq2, hr⟩

/-- C4 witness: in the all-success environment the issued update call is the
non-force one. -/
theorem C4_pushCommit_nonforce_witness :
    (RemoteCall.gitUpdateRef "mercadolibre" "r1"
        { ref := "refs/heads/feature/x", sha := "c1" } false ∈
      (pullRequestCommand.pushCommit envAllOk optA
        { ref := "refs/heads/feature/x", sha := "s0" } { sha := "t0" }).2) ∧
    RemoteCall.isNonForce (RemoteCall.gitUpdateRef "mercadolibre" "r1"
        { ref := "refs/heads/feature/x", sha := "c1" } false) = true := by
  have hmem : RemoteCall.gitUpdateRef "mercadolibre" "r1"
      { ref := "refs/heads/feature/x", sha := "c1" } false ∈
      (pullRequestCommand.pushCommit envAllOk optA
        { ref := "refs/heads/feature/x", sha := "s0" } { sha := "t0" }).2 := by
    decide
  exact ⟨hmem, (C4_pushCommit_nonforce envAllOk optA
    { ref := "refs/heads/feature/x", sha := "s0" } { sha := "t0" }).1 _ hmem⟩

theorem doJob_eq_of_getRef_error (env : Env) (o : pullRequestCreationOptions)
    (e : GoErr) (tr1 : List RemoteCall)
    (hg : pullRequestCommand.getRef env o = (Except.error e, tr1)) :
    pullRequestCommand.doJob env o = (Except.error e, tr1) := by
  simp only [pullRequestCommand.doJob, hg]

theorem doJob_eq_of_getTree_error (env : Env) (o : pullRequestCreationOptions)
    (ref : GitRef) (e : GoErr) (tr1 tr2 : List RemoteCall)
    (hg : pullRequestCommand.getRef env o = (Except.ok ref, tr1))
    (ht : pullRequestCommand.getTree env o ref = (Except.error e, tr2)) :
    pullRequestCommand.doJob env o =
      (Except.error ("unable to create the tree based on the provided files: " ++ e),
       tr1 ++ tr2) := by
  simp only [pullRequestCommand.doJob, hg, ht]

theorem doJob_eq_of_pushCommit_error (env : Env) (o : pullRequestCreationOptions)
    (ref : GitRef) (tree : GitTree) (e : GoErr) (tr1 tr2 tr3 : List RemoteCall)
    (hg : pullRequestCommand.getRef env o = (Except.ok ref, tr1))
    (ht : pullRequestCommand.getTree env o ref = (Except.ok tree, tr2))
    (hp : pullRequestCommand.pushCommit env o ref tree = (Except.error e, tr3)) :
    pullRequestCommand.doJob env o =
      (Except.error ("unable to create the commit: " ++ e), tr1 ++ tr2 ++ tr3) := by
  simp only [pullRequestCommand.doJob, hg, ht, hp]

theorem doJob_eq_of_success (env : Env) (o : pullRequestCreationOptions)
    (ref : GitRef) (tree : GitTree) (tr1 tr2 tr3 : List RemoteCall)
    (hg : pullRequestCommand.getRef env o = (Except.ok ref, tr1))
    (ht : pullRequestCommand.getTree env o ref = (Except.ok tree, tr2))
    (hp : pullRequestCommand.pushCommit env o ref tree = (Except.ok (), tr3)) :
    pullRequestCommand.doJob env o =
      ((pullRequestCommand.createPR env o).1,
       tr1 ++ tr2 ++ tr3 ++ (pullRequestCommand.createPR env o).2) := by
  rcases hc : pullRequestCommand.createPR env o with ⟨r4, tr4⟩
  simp only [pullRequestCommand.doJob, hg, ht, hp, hc]

theorem pairwise_step_const {l : List RemoteCall} {k : Nat}
    (h : ∀ c ∈ l, RemoteCall.step c = k) :
    List.Pairwise (fun a b => RemoteCall.step a ≤ RemoteCall.step b) l := by
  induction l with
  | nil => exact List.Pairwise.nil
  | cons x xs ih =>
    refine List.Pairwise.cons ?_ (ih fun c hc => h c (List.mem_cons_of_mem x hc))
    intro b hb
    rw [h x (List.mem_cons_self x xs), h b (List.mem_cons_of_mem x hb)]

theorem pairwise_step_append {l1 l2 : List RemoteCall}
    (h1 : List.Pairwise (fun a b => RemoteCall.step a ≤ RemoteCall.step b) l1)
    (h2 : List.Pairwise (fun a b => RemoteCall.step a ≤ RemoteCall.step b) l2)
    (hb : ∀ a ∈ l1, ∀ b ∈ l2, RemoteCall.step a ≤ RemoteCall.step b) :
    List.Pairwise (fun a b => RemoteCall.step a ≤ RemoteCall.step b) (l1 ++ l2) :=
  List.pairwise_append.mpr ⟨h1, h2, hb⟩

/-- C7: each job's remote calls occur in the fixed stage order
reference-resolution → tree → commit → pull-request (the trace's stages are
nondecreasing), and a failing step terminates the job with that step's error,
never issuing a later stage's call: a reference failure leaves only stage-1
calls, a tree failure only stages ≤ 2, a commit failure only stages ≤ 3, and
only a fully successful prefix reaches the PR-creation call. -/
theorem C7_stateMachine (env : Env) (o : pullRequestCreationOptions) :
    List.Pairwise (fun a b => RemoteCall.step a ≤ RemoteCall.step b)
      (pullRequestCommand.doJob env o).2 ∧
    (∀ e tr1, pullRequestCommand.getRef env o = (Except.error e, tr1) →
      pullRequestCommand.doJob env o = (Except.error e, tr1) ∧
      ∀ c ∈ (pullRequestCommand.doJob env o).2, c.step ≤ 1) ∧
    (∀ ref e tr1 tr2,
      pullRequestCommand.getRef env o = (Except.ok ref, tr1) →
      pullRequestCommand.getTree env o ref = (Except.error e, tr2) →
      pullRequestCommand.doJob env o =
        (Except.error ("unable to create the tree based on the provided files: " ++ e),
         tr1 ++ tr2) ∧
      ∀ c ∈ (pullRequestCommand.doJob env o).2, c.step ≤ 2) ∧
    (∀ ref tree e tr1 tr2 tr3,
      pullRequestCommand.getRef env o = (Except.ok ref, tr1) →
      pullRequestCommand.getTree env o ref = (Except.ok tree, tr2) →
      pullRequestCommand.pushCommit env o ref tree = (Except.error e, tr3) →
      pullRequestCommand.doJob env o =
        (Except.error ("unable to create the commit: " ++ e), tr1 ++ tr2 ++ tr3) ∧
      ∀ c ∈ (pullRequestCommand.doJob env o).2, c.step ≤ 3) ∧
    (∀ ref tree tr1 tr2 tr3,
      pullRequestCommand.getRef env o = (Except.ok ref, tr1) →
      pullRequestCommand.getTree env o ref = (Except.ok tree, tr2) →
      pullRequestCommand.pushCommit env o ref tree = (Except.ok (), tr3) →
      pullRequestCommand.doJob env o =
        ((pullRequestCommand.createPR env o).1,
         tr1 ++ tr2 ++ tr3 ++ (pullRequestCommand.createPR env o).2)) := by
  refine ⟨?_, ?_, ?_, ?_, ?_⟩
  · rcases hg : pullRequestCommand.getRef env o with ⟨r1, tr1⟩
    have h1 : ∀ c ∈ tr1, RemoteCall.step c = 1 := by
      have h := getRef_trace_step env o
      rw [hg] at h
      exact h
    cases r1 with
    | error e =>
      rw [doJob_eq_of_getRef_error env o e tr1 hg]
      exact pairwise_step_const h1
    | ok ref =>
      rcases ht : pullRequestCommand.getTree env o ref with ⟨r2, tr2⟩
      have h2 : ∀ c ∈ tr2, RemoteCall.step c = 2 := by
        have h := getTree_trace_step env o ref
        rw [ht] at h
        exact h
      cases r2 with
      | error e =>
        rw [doJob_eq_of_getTree_error env o ref e tr1 tr2 hg ht]
        exact pairwise_step_append (pairwise_step_const h1) (pairwise_step_const h2)
          (fun a ha b hb => by rw [h1 a ha, h2 b hb]; omega)
      | ok tree =>
        rcases hp : pullRequestCommand.pushCommit env o ref tree with ⟨r3, tr3⟩
        have h3 : ∀ c ∈ tr3, RemoteCall.step c = 3 := by
          have h := pushCommit_trace_step env o ref tree
          rw [hp] at h
          exact h
        have h12 : List.Pairwise (fun a b => RemoteCall.step a ≤ RemoteCall.step b)
            (tr1 ++ tr2) :=
          pairwise_step_append (pairwise_step_const h1) (pairwise_step_const h2)
            (fun a ha b hb => by rw [h1 a ha, h2 b hb]; omega)
        have hle12 : ∀ a ∈ tr1 ++ tr2, RemoteCall.step a ≤ 2 := by
          intro a ha
          rcases List.mem_append.mp ha with h | h
          · rw [h1 a h]; omega
          · rw [h2 a h]
        cases r3 with
        | error e =>
          rw [doJob_eq_of_pushCommit_error env o ref tree e tr1 tr2 tr3 hg ht hp]
          exact pairwise_step_append h12 (pairwise_step_const h3)
            (fun a ha b hb => by
              have := hle12 a ha
              rw [h3 b hb]
              omega)
        | ok u =>
          cases u
          rcases hc : pullRequestCommand.createPR env o with ⟨r4, tr4⟩
          have h4 : ∀ c ∈ tr4, RemoteCall.step c = 4 := by
            have h := createPR_trace_step env o
            rw [hc] at h
            exact h
          have h123 : List.Pairwise (fun a b => RemoteCall.step a ≤ RemoteCall.step b)
              (tr1 ++ tr2 ++ tr3) :=
            pairwise_step_append h12 (pairwise_step_const h3)
              (fun a ha b hb => by
                have := hle12 a ha
                rw [h3 b hb]
                omega)
          have hle123 : ∀ a ∈ tr1 ++ tr2 ++ tr3, RemoteCall.step a ≤ 3 := by
            intro a ha
            rcases List.mem_append.mp ha with h | h
            · have := hle12 a h; omega
            · rw [h3 a h]
          rw [doJob_eq_of_success env o ref tree tr1 tr2 tr3 hg ht hp, hc]
          exact pairwise_step_append h123 (pairwise_step_const h4)
            (fun a ha b hb => by
              have := hle123 a ha
              rw [h4 b hb]
              omega)
  · intro e tr1 hg
    have h1 : ∀ c ∈ tr1, RemoteCall.step c = 1 := by
      have h := getRef_trace_step env o
      rw [hg] at h
      exact h
    rw [doJob_eq_of_getRef_error env o e tr1 hg]
    exact ⟨rfl, fun c hc => le_of_eq (h1 c hc)⟩
  · intro ref e tr1 tr2 hg ht
    have h1 : ∀ c ∈ tr1, RemoteCall.step c = 1 := by
      have h := getRef_trace_step env o
      rw [hg] at h
      exact h
    have h2 : ∀ c ∈ tr2, RemoteCall.step c = 2 := by
      have h := getTree_trace_step env o ref
      rw [ht] at h
      exact h
    rw [doJob_eq_of_getTree_error env o ref e tr1 tr2 hg ht]
    refine ⟨rfl, fun c hc => ?_⟩
    rcases List.mem_append.mp hc with h | h
    · rw [h1 c h]; omega
    · rw [h2 c h]
  · intro ref tree e tr1 tr2 tr3 hg ht hp
    have h1 : ∀ c ∈ tr1, RemoteCall.step c = 1 := by
      have h := getRef_trace_step env o
      rw [hg] at h
      exact h
    have h2 : ∀ c ∈ tr2, RemoteCall.step c = 2 := by
      have h := getTree_trace_step env o ref
      rw [ht] at h
      exact h
    have h3 : ∀ c ∈ tr3, RemoteCall.step c = 3 := by
      have h := pushCommit_trace_step env o ref tree
      rw [hp] at h
      exact h
    rw [doJob_eq_of_pushCommit_error env o ref tree e tr1 tr2 tr3 hg ht hp]
    refine ⟨rfl, fun c hc => ?_⟩
    rcases List.mem_append.mp hc with h | h
    · rcases List.mem_append.mp h with h | h
      · rw [h1 c h]; omega
      · rw [h2 c h]; omega
    · rw [h3 c h]
  · intro ref tree tr1 tr2 tr3 hg ht hp
    exact doJob_eq_of_success env o ref tree tr1 tr2 tr3 hg ht hp

/-- C7 witness: the all-success environment runs all four stages in order. -/
theorem C7_stateMachine_witness :
    pullRequestCommand.doJob envAllOk optA =
      ((pullRequestCommand.createPR envAllOk optA).1,
       [RemoteCall.gitGetRef "mercadolibre" "r1" "refs/heads/feature/x"] ++
       [RemoteCall.gitCreateTree "mercadolibre" "r1" "s0"
          [{ path := "a", type := "blob", content := "x", mode := "100644" }]] ++
       [RemoteCall.repoGetCommit "mercadolibre" "r1" "s0",
        RemoteCall.gitCreateCommit "mercadolibre" "r1"
          { authorName := "Ada", authorEmail := "ada@example.com",
            message := "msg", treeSha := "t0", parents := [{ sha := "s0" }] },
        RemoteCall.gitUpdateRef "mercadolibre" "r1"
          { ref := "refs/heads/feature/x", sha := "c1" } false] ++
       (pullRequestCommand.createPR envAllOk optA).2) :=
  (C7_stateMachine envAllOk optA).2.2.2.2
    { ref := "refs/heads/feature/x", sha := "s0" } { sha := "t0" }
    [RemoteCall.gitGetRef "mercadolibre" "r1" "refs/heads/feature/x"]
    [RemoteCall.gitCreateTree "mercadolibre" "r1" "s0"
       [{ path := "a", type := "blob", content := "x", mode := "100644" }]]
    [RemoteCall.repoGetCommit "mercadolibre" "r1" "s0",
     RemoteCall.gitCreateCommit "mercadolibre" "r1"
       { authorName := "Ada", authorEmail := "ada@example.com",
         message := "msg", treeSha := "t0", parents := [{ sha := "s0" }] },
     RemoteCall.gitUpdateRef "mercadolibre" "r1"
       { ref := "refs/heads/feature/x", sha := "c1" } false]
    rfl rfl rfl

/-- The job options `BatchPullRequestOption.Range` builds for one destination:
the destination supplies repository and base branch, the batch description the
shared fields, and both owners are the fixed string `"mercadolibre"`. -/
def BatchPullRequestOption.mkJobOptions (b : BatchPullRequestOption)
    (v : Destination) : pullRequestCreationOptions where
  sourceRepo := v.repository
  baseBranch := v.base
  commitMessage := b.commitMessage
  commitBranch := b.head
  pullRequestRepo := v.repository
  pullRequestBranch := v.base
  pullRequestSubject := b.subject
  pullRequestBody := b.body
  files := b.files
  authorName := b.authorName
  authorEmail := b.authorEmail
  sourceOwner := "mercadolibre"
  pullRequestOwner := "mercadolibre"

/-- The job-options sequence `Range` iterates, in destination-list order. -/
def BatchPullRequestOption.rangeOptionsList (b : BatchPullRequestOption) :
    List pullRequestCreationOptions :=
  b.destinations.map b.mkJobOptions

/-- The loop of `BatchPullRequestOption.Range`: apply `f` to each job option
in order, threading the caller's state `s` (the Go closure's captured
variables), and stop at the first error. -/
def rangeAux {σ : Type} (f : pullRequestCreationOptions → σ → σ × Option GoErr) :
    List pullRequestCreationOptions → σ → σ × Option GoErr
  | [], s => (s, none)
  | o :: rest, s =>
    match f o s with
    | (s2, some e) => (s2, some e)
    | (s2, none) => rangeAux f rest s2

/-- `BatchPullRequestOption.Range`: build each destination's job options in
order and apply `f`, returning `f`'s first error, if any. -/
def BatchPullRequestOption.Range {σ : Type} (b : BatchPullRequestOption)
    (f : pullRequestCreationOptions → σ → σ × Option GoErr) (s : σ) :
    σ × Option GoErr :=
  rangeAux f b.rangeOptionsList s

/-- The closure `Do` passes to `Range`: run the job, append its PR URL to the
collected list when non-empty (`if prURL != ""`), record its remote calls, and
propagate its error. The threaded state is (collected URLs, trace so far). -/
def doLoopBody (env : Env) (o : pullRequestCreationOptions)
    (s : List String × List RemoteCall) :
    (List String × List RemoteCall) × Option GoErr :=
  match pullRequestCommand.doJob env o with
  | (Except.ok url, tr) =>
    if url ≠ "" then ((s.1 ++ [url], s.2 ++ tr), none)
    else ((s.1, s.2 ++ tr), none)
  | (Except.error e, tr) => ((s.1, s.2 ++ tr), some e)

/-- `BatchPullRequestCommand.Do`: resolve the authenticated user once; on
failure return no URLs and that error. Otherwise fill the author fields into
the options (the receiver mutation `Do` performs) and run one job per
destination via `Range`, collecting PR URLs. Returns (urls, first error), the
updated options, and the full remote-call trace. -/
def BatchPullRequestCommand.Do (env : Env) (b : BatchPullRequestOption) :
    (List String × Option GoErr) × BatchPullRequestOption × List RemoteCall :=
  match env.usersGet with
  | Except.error e => (([], some e), b, [RemoteCall.usersGet])
  | Except.ok u =>
    match BatchPullRequestOption.Range
        { b with authorName := u.name, authorEmail := u.email }
        (doLoopBody env) ([], [RemoteCall.usersGet]) with
    | ((urls, tr), err) =>
      ((urls, err), { b with authorName := u.name, authorEmail := u.email }, tr)

/-- Loop-invariant form of the batch loop from empty accumulators: the URLs
kept (with the `!= ""` filter), the concatenated trace, and the first error of
the jobs of `opts`, run in order and stopping at the first failure. -/
def runJobsCode (env : Env) : List pullRequestCreationOptions →
    List String × List RemoteCall × Option GoErr
  | [] => ([], [], none)
  | o :: rest =>
    match pullRequestCommand.doJob env o with
    | (Except.ok url, tr) =>
      match runJobsCode env rest with
      | (urls, trs, err) =>
        ((if url ≠ "" then url :: urls else urls), tr ++ trs, err)
    | (Except.error e, tr) => ([], tr, some e)

/-- Specification-side batch runner, from the spec's words for `RunAll`:
execute the jobs sequentially in the given order; on a job's failure stop and
return that error together with the URLs of all prior successful jobs; also
collect the traces of the attempted jobs only. -/
def runJobsSpec (env : Env) : List pullRequestCreationOptions →
    List String × List RemoteCall × Option GoErr
  | [] => ([], [], none)
  | o :: rest =>
    match pullRequestCommand.doJob env o with
    | (Except.ok url, tr) =>
      match runJobsSpec env rest with
      | (urls, trs, err) => (url :: urls, tr ++ trs, err)
    | (Except.error e, tr) => ([], tr, some e)

/-- The repository owner a remote call is addressed to (`none` for the
authenticated-user lookup, which has no owner argument). -/
def RemoteCall.ownerOf : RemoteCall → Option String
  | RemoteCall.usersGet => none
  | RemoteCall.gitGetRef ow _ _ => some ow
  | RemoteCall.gitCreateRef ow _ _ => some ow
  | RemoteCall.gitCreateTree ow _ _ _ => some ow
  | RemoteCall.repoGetCommit ow _ _ => some ow
  | RemoteCall.gitCreateCommit ow _ _ => some ow
  | RemoteCall.gitUpdateRef ow _ _ _ => some ow
  | RemoteCall.prCreate ow _ _ => some ow

theorem createPR_ok_url (env : Env) (o : pullRequestCreationOptions)
    (url : String) (tr : List RemoteCall)
    (h : pullRequestCommand.createPR env o = (Except.ok url, tr)) :
    ∃ pr, env.prCreate o.pullRequestOwner o.pullRequestRepo (newPROf o) =
        Except.ok pr ∧ url = pr.htmlURL := by
  unfold pullRequestCommand.createPR at h
  split at h
  · simp only [Prod.mk.injEq, reduceCtorEq, false_and] at h
  · rename_i pr heq
    simp only [Prod.mk.injEq, Except.ok.injEq] at h
    exact ⟨pr, heq, h.1.symm⟩

theorem doJob_ok_url (env : Env) (o : pullRequestCreationOptions)
    (url : String) (tr : List RemoteCall)
    (h : pullRequestCommand.doJob env o = (Except.ok url, tr)) :
    ∃ pr, env.prCreate o.pullRequestOwner o.pullRequestRepo (newPROf o) =
        Except.ok pr ∧ url = pr.htmlURL := by
  unfold pullRequestCommand.doJob at h
  split at h
  · simp only [Prod.mk.injEq, reduceCtorEq, false_and] at h
  · split at h
    · simp only [Prod.mk.injEq, reduceCtorEq, false_and] at h
    · split at h
      · simp only [Prod.mk.injEq, reduceCtorEq, false_and] at h
      · split at h
        rename_i res4 tr4 hc
        simp only [Prod.mk.injEq] at h
        exact createPR_ok_url env o url tr4 (by rw [hc, h.1])

theorem doJob_ok_url_ne_empty (env : Env) (o : pullRequestCreationOptions)
    (hurl : ∀ ow rp pr res, env.prCreate ow rp pr = Except.ok res →
      res.htmlURL ≠ "")
    (url : String) (tr : List RemoteCall)
    (h : pullRequestCommand.doJob env o = (Except.ok url, tr)) : url ≠ "" := by
  rcases doJob_ok_url env o url tr h with ⟨pr, hpr, hu⟩
  rw [hu]
  exact hurl _ _ _ _ hpr

theorem rangeAux_doLoop_eq (env : Env)
    (opts : List pullRequestCreationOptions)
    (urls0 : List String) (tr0 : List RemoteCall) :
    rangeAux (doLoopBody env) opts (urls0, tr0) =
      ((urls0 ++ (runJobsCode env opts).1, tr0 ++ (runJobsCode env opts).2.1),
       (runJobsCode env opts).2.2) := by
  induction opts generalizing urls0 tr0 with
  | nil => simp [rangeAux, runJobsCode]
  | cons o rest ih =>
    rcases hd : pullRequestCommand.doJob env o with ⟨res, tr⟩
    cases res with
    | ok url =>
      rcases hs : runJobsCode env rest with ⟨us, trs, err⟩
      by_cases hne : url = ""
      · subst hne
        simp only [rangeAux, doLoopBody, hd, ne_eq, not_true_eq_false,
          if_false, List.append_nil, runJobsCode, hs, ite_false]
        rw [ih]
        simp [hs, List.append_assoc]
      · simp only [rangeAux, doLoopBody, hd, ne_eq, hne, not_false_eq_true,
          if_true, runJobsCode, hs, ite_true]
        rw [ih]
        simp [hs, List.append_assoc]
    | error e =>
      simp [rangeAux, doLoopBody, hd, runJobsCode]

theorem runJobsCode_eq_spec (env : Env)
    (hurl : ∀ ow rp pr res, env.prCreate ow rp pr = Except.ok res →
      res.htmlURL ≠ "")
    (opts : List pullRequestCreationOptions) :
    runJobsCode env opts = runJobsSpec env opts := by
  induction opts with
  | nil => rfl
  | cons o rest ih =>
    rcases hd : pullRequestCommand.doJob env o with ⟨res, tr⟩
    cases res with
    | ok url =>
      have hne : url ≠ "" := doJob_ok_url_ne_empty env o hurl url tr hd
      rcases hs : runJobsSpec env rest with ⟨us, trs, err⟩
      simp only [runJobsCode, runJobsSpec, hd, hs, ih, ne_eq, hne,
        not_false_eq_true, if_true]
    | error e =>
      simp [runJobsCode, runJobsSpec, hd]

theorem Do_eq_runJobsCode (env : Env) (b : BatchPullRequestOption) (u : GoUser)
    (hu : env.usersGet = Except.ok u) :
    BatchPullRequestCommand.Do env b =
      (((runJobsCode env (BatchPullRequestOption.rangeOptionsList
           { b with authorName := u.name, authorEmail := u.email })).1,
        (runJobsCode env (BatchPullRequestOption.rangeOptionsList
           { b with authorName := u.name, authorEmail := u.email })).2.2),
       { b with authorName := u.name, authorEmail := u.email },
       RemoteCall.usersGet :: (runJobsCode env (BatchPullRequestOption.rangeOptionsList
           { b with authorName := u.name, authorEmail := u.email })).2.1) := by
  unfold BatchPullRequestCommand.Do BatchPullRequestOption.Range
  simp only [hu]
  rw [rangeAux_doLoop_eq]
  simp

/-- C1: once the author is resolved, `Do` executes one job per destination
sequentially in destination-list order and equals the specification runner
`runJobsSpec`: it stops at the first failing job, returns that job's error
together with exactly the URLs of the prior successful jobs in order, and the
remote-call trace contains the attempted jobs' calls only (no call for any
destination after the failure). The environment hypothesis says a
successfully created pull request carries a non-empty web URL. -/
theorem C1_runAll (env : Env) (b : BatchPullRequestOption) (u : GoUser)
    (hu : env.usersGet = Except.ok u)
    (hurl : ∀ ow rp pr res, env.prCreate ow rp pr = Except.ok res →
      res.htmlURL ≠ "") :
    BatchPullRequestCommand.Do env b =
      (((runJobsSpec env (BatchPullRequestOption.rangeOptionsList
           { b with authorName := u.name, authorEmail := u.email })).1,
        (runJobsSpec env (BatchPullRequestOption.rangeOptionsList
           { b with authorName := u.name, authorEmail := u.email })).2.2),
       { b with authorName := u.name, authorEmail := u.email },
       RemoteCall.usersGet ::
         (runJobsSpec env (BatchPullRequestOption.rangeOptionsList
           { b with authorName := u.name, authorEmail := u.email })).2.1) := by
  rw [Do_eq_runJobsCode env b u hu, runJobsCode_eq_spec env hurl]

/-- A concrete batch description with two destinations. -/
def batchB : BatchPullRequestOption where
  commitMessage := "msg"
  subject := "subj"
  body := "body"
  destinations := [{ repository := "r1", base := "main" },
                   { repository := "r2", base := "main" }]
  files := ["a"]
  authorName := ""
  authorEmail := ""
  head := "feature/x"

/-- C1 witness: the two-destination batch in the all-success environment. -/
theorem C1_runAll_witness :
    BatchPullRequestCommand.Do envAllOk batchB =
      (((runJobsSpec envAllOk (BatchPullRequestOption.rangeOptionsList
           { batchB with authorName := testUser.name,
                         authorEmail := testUser.email })).1,
        (runJobsSpec envAllOk (BatchPullRequestOption.rangeOptionsList
           { batchB with authorName := testUser.name,
                         authorEmail := testUser.email })).2.2),
       { batchB with authorName := testUser.name,
                     authorEmail := testUser.email },
       RemoteCall.usersGet ::
         (runJobsSpec envAllOk (BatchPullRequestOption.rangeOptionsList
           { batchB with authorName := testUser.name,
                         authorEmail := testUser.email })).2.1) :=
  C1_runAll envAllOk batchB testUser rfl
    (by
      intro ow rp pr res h
      simp only [envAllOk, Except.ok.injEq] at h
      rw [← h]
      decide)

theorem doJob_trace_pos (env : Env) (o : pullRequestCreationOptions) :
    ∀ c ∈ (pullRequestCommand.doJob env o).2, 1 ≤ c.step := by
  rcases hg : pullRequestCommand.getRef env o with ⟨r1, tr1⟩
  have h1 := getRef_trace_step env o
  rw [hg] at h1
  cases r1 with
  | error e =>
    rw [doJob_eq_of_getRef_error env o e tr1 hg]
    intro c hc
    rw [h1 c hc]
  | ok ref =>
    rcases ht : pullRequestCommand.getTree env o ref with ⟨r2, tr2⟩
    have h2 := getTree_trace_step env o ref
    rw [ht] at h2
    cases r2 with
    | error e =>
      rw [doJob_eq_of_getTree_error env o ref e tr1 tr2 hg ht]
      intro c hc
      rcases List.mem_append.mp hc with h | h
      · rw [h1 c h]
      · rw [h2 c h]; omega
    | ok tree =>
      rcases hp : pullRequestCommand.pushCommit env o ref tree with ⟨r3, tr3⟩
      have h3 := pushCommit_trace_step env o ref tree
      rw [hp] at h3
      cases r3 with
      | error e =>
        rw [doJob_eq_of_pushCommit_error env o ref tree e tr1 tr2 tr3 hg ht hp]
        intro c hc
        rcases List.mem_append.mp hc with h | h
        · rcases List.mem_append.mp h with h | h
          · rw [h1 c h]
          · rw [h2 c h]; omega
        · rw [h3 c h]; omega
      | ok u =>
        cases u
        rcases hc4 : pullRequestCommand.createPR env o with ⟨r4, tr4⟩
        have h4 := createPR_trace_step env o
        rw [hc4] at h4
        rw [doJob_eq_of_success env o ref tree tr1 tr2 tr3 hg ht hp, hc4]
        intro c hc
        rcases List.mem_append.mp hc with h | h
        · rcases List.mem_append.mp h with h | h
          · rcases List.mem_append.mp h with h | h
            · rw [h1 c h]
            · rw [h2 c h]; omega
          · rw [h3 c h]; omega
        · rw [h4 c h]; omega

theorem runJobsCode_trace_pos (env : Env)
    (opts : List pullRequestCreationOptions) :
    ∀ c ∈ (runJobsCode env opts).2.1, 1 ≤ c.step := by
  induction opts with
  | nil => simp [runJobsCode]
  | cons o rest ih =>
    rcases hd : pullRequestCommand.doJob env o with ⟨res, tr⟩
    have hdp := doJob_trace_pos env o
    rw [hd] at hdp
    cases res with
    | ok url =>
      rcases hs : runJobsCode env rest with ⟨us, trs, err⟩
      rw [hs] at ih
      simp only [runJobsCode, hd, hs]
      intro c hc
      rcases List.mem_append.mp hc with h | h
      · exact hdp c h
      · exact ih c h
    | error e =>
      simp only [runJobsCode, hd]
      exact hdp

/-- C6: in every batch run with a resolvable author, the authenticated-user
lookup is the first remote call and occurs exactly once; and expansion yields
one job-options record per destination, in destination-list order, each
carrying the resolved author identity, value copies of the shared fields
(files, commit message, subject, body, head), and the destination's
repository and base branch, with the fixed owners. -/
theorem C6_expand (env : Env) (b : BatchPullRequestOption) (u : GoUser)
    (hu : env.usersGet = Except.ok u) :
    (∃ rest, (BatchPullRequestCommand.Do env b).2.2 =
        RemoteCall.usersGet :: rest ∧ RemoteCall.usersGet ∉ rest) ∧
    (BatchPullRequestOption.rangeOptionsList
        { b with authorName := u.name, authorEmail := u.email }).length =
      b.destinations.length ∧
    ∀ i (hi : i < (BatchPullRequestOption.rangeOptionsList
        { b with authorName := u.name, authorEmail := u.email }).length)
      (hib : i < b.destinations.length),
      (BatchPullRequestOption.rangeOptionsList
          { b with authorName := u.name, authorEmail := u.email }).get ⟨i, hi⟩ =
        { sourceOwner := "mercadolibre"
          pullRequestOwner := "mercadolibre"
          sourceRepo := (b.destinations.get ⟨i, hib⟩).repository
          baseBranch := (b.destinations.get ⟨i, hib⟩).base
          commitMessage := b.commitMessage
          commitBranch := b.head
          pullRequestRepo := (b.destinations.get ⟨i, hib⟩).repository
          pullRequestBranch := (b.destinations.get ⟨i, hib⟩).base
          pullRequestSubject := b.subject
          pullRequestBody := b.body
          files := b.files
          authorName := u.name
          authorEmail := u.email } := by
  refine ⟨?_, ?_, ?_⟩
  · refine ⟨(runJobsCode env (BatchPullRequestOption.rangeOptionsList
      { b with authorName := u.name, authorEmail := u.email })).2.1, ?_, ?_⟩
    · rw [Do_eq_runJobsCode env b u hu]
    · intro hmem
      have h := runJobsCode_trace_pos env _ _ hmem
      simp [RemoteCall.step] at h
  · simp [BatchPullRequestOption.rangeOptionsList]
  · intro i hi hib
    simp only [BatchPullRequestOption.rangeOptionsList, List.get_eq_getElem,
      List.getElem_map]
    rfl

/-- C6 witness: the two-destination batch in the all-success environment. -/
theorem C6_expand_witness :
    (∃ rest, (BatchPullRequestCommand.Do envAllOk batchB).2.2 =
        RemoteCall.usersGet :: rest ∧ RemoteCall.usersGet ∉ rest) ∧
    (BatchPullRequestOption.rangeOptionsList
        { batchB with authorName := testUser.name,
                      authorEmail := testUser.email }).length =
      batchB.destinations.length ∧
    ∀ i (hi : i < (BatchPullRequestOption.rangeOptionsList
        { batchB with authorName := testUser.name,
                      authorEmail := testUser.email }).length)
      (hib : i < batchB.destinations.length),
      (BatchPullRequestOption.rangeOptionsList
          { batchB with authorName := testUser.name,
                        authorEmail := testUser.email }).get ⟨i, hi⟩ =
        { sourceOwner := "mercadolibre"
          pullRequestOwner := "mercadolibre"
          sourceRepo := (batchB.destinations.get ⟨i, hib⟩).repository
          baseBranch := (batchB.destinations.get ⟨i, hib⟩).base
          commitMessage := batchB.commitMessage
          commitBranch := batchB.head
          pullRequestRepo := (batchB.destinations.get ⟨i, hib⟩).repository
          pullRequestBranch := (batchB.destinations.get ⟨i, hib⟩).base
          pullRequestSubject := batchB.subject
          pullRequestBody := batchB.body
          files := batchB.files
          authorName := testUser.name
          authorEmail := testUser.email } :=
  C6_expand envAllOk batchB testUser rfl

/-- C9: running the whole batch leaves every named ChangeSpec field of a
validated batch description unchanged — `Do` only fills in the unexported
author fields of its receiver. -/
theorem C9_frame (env : Env) (b : BatchPullRequestOption)
    (hv : b.validate = none) :
    (BatchPullRequestCommand.Do env b).2.1.commitMessage = b.commitMessage ∧
    (BatchPullRequestCommand.Do env b).2.1.subject = b.subject ∧
    (BatchPullRequestCommand.Do env b).2.1.body = b.body ∧
    (BatchPullRequestCommand.Do env b).2.1.head = b.head ∧
    (BatchPullRequestCommand.Do env b).2.1.files = b.files ∧
    (BatchPullRequestCommand.Do env b).2.1.destinations = b.destinations := by
  clear hv
  unfold BatchPullRequestCommand.Do
  split
  · exact ⟨rfl, rfl, rfl, rfl, rfl, rfl⟩
  · split
    exact ⟨rfl, rfl, rfl, rfl, rfl, rfl⟩

/-- C9 witness: the concrete validated batch is unchanged by `Do`. -/
theorem C9_frame_witness :
    batchB.validate = none ∧
    ((BatchPullRequestCommand.Do envAllOk batchB).2.1.commitMessage =
        batchB.commitMessage ∧
     (BatchPullRequestCommand.Do envAllOk batchB).2.1.subject = batchB.subject ∧
     (BatchPullRequestCommand.Do envAllOk batchB).2.1.body = batchB.body ∧
     (BatchPullRequestCommand.Do envAllOk batchB).2.1.head = batchB.head ∧
     (BatchPullRequestCommand.Do envAllOk batchB).2.1.files = batchB.files ∧
     (BatchPullRequestCommand.Do envAllOk batchB).2.1.destinations =
        batchB.destinations) :=
  ⟨rfl, C9_frame envAllOk batchB rfl⟩

theorem getRef_trace_owner (env : Env) (o : pullRequestCreationOptions) :
    ∀ c ∈ (pullRequestCommand.getRef env o).2,
      c.ownerOf = some o.sourceOwner ∨ c.ownerOf = some "mercadolibre" := by
  unfold pullRequestCommand.getRef
  cases env.gitGetRef o.sourceOwner o.sourceRepo ("refs/heads/" ++ o.commitBranch) with
  | ok ref => simp [RemoteCall.ownerOf]
  | error e =>
    cases env.gitGetRef o.sourceOwner o.sourceRepo ("refs/heads/" ++ o.baseBranch) with
    | ok baseRef => simp [RemoteCall.ownerOf]
    | error e2 => simp [RemoteCall.ownerOf]

theorem getTree_trace_owner (env : Env) (o : pullRequestCreationOptions)
    (ref : GitRef) :
    ∀ c ∈ (pullRequestCommand.getTree env o ref).2,
      c.ownerOf = some o.sourceOwner := by
  unfold pullRequestCommand.getTree
  split
  · simp
  · simp [RemoteCall.ownerOf]

theorem pushCommit_trace_owner (env : Env) (o : pullRequestCreationOptions)
    (ref : GitRef) (tree : GitTree) :
    ∀ c ∈ (pullRequestCommand.pushCommit env o ref tree).2,
      c.ownerOf = some o.sourceOwner := by
  unfold pullRequestCommand.pushCommit
  split
  · simp [RemoteCall.ownerOf]
  · split
    · simp [RemoteCall.ownerOf]
    · split
      · simp [RemoteCall.ownerOf]
      · simp [RemoteCall.ownerOf]

theorem createPR_trace_owner (env : Env) (o : pullRequestCreationOptions) :
    ∀ c ∈ (pullRequestCommand.createPR env o).2,
      c.ownerOf = some o.pullRequestOwner := by
  unfold pullRequestCommand.createPR
  split
  · simp [RemoteCall.ownerOf]
  · simp [RemoteCall.ownerOf]

theorem doJob_trace_owner (env : Env) (o : pullRequestCreationOptions)
    (hso : o.sourceOwner = "mercadolibre")
    (hpo : o.pullRequestOwner = "mercadolibre") :
    ∀ c ∈ (pullRequestCommand.doJob env o).2,
      c.ownerOf = some "mercadolibre" := by
  rcases hg : pullRequestCommand.getRef env o with ⟨r1, tr1⟩
  have h1 := getRef_trace_owner env o
  rw [hg] at h1
  have h1m : ∀ c ∈ tr1, RemoteCall.ownerOf c = some "mercadolibre" := by
    intro c hc
    rcases h1 c hc with h | h
    · rw [h, hso]
    · exact h
  cases r1 with
  | error e =>
    rw [doJob_eq_of_getRef_error env o e tr1 hg]
    exact h1m
  | ok ref =>
    rcases ht : pullRequestCommand.getTree env o ref with ⟨r2, tr2⟩
    have h2 := getTree_trace_owner env o ref
    rw [ht] at h2
    have h2m : ∀ c ∈ tr2, RemoteCall.ownerOf c = some "mercadolibre" := by
      intro c hc
      rw [h2 c hc, hso]
    cases r2 with
    | error e =>
      rw [doJob_eq_of_getTree_error env o ref e tr1 tr2 hg ht]
      intro c hc
      rcases List.mem_append.mp hc with h | h
      · exact h1m c h
      · exact h2m c h
    | ok tree =>
      rcases hp : pullRequestCommand.pushCommit env o ref tree with ⟨r3, tr3⟩
      have h3 := pushCommit_trace_owner env o ref tree
      rw [hp] at h3
      have h3m : ∀ c ∈ tr3, RemoteCall.ownerOf c = some "mercadolibre" := by
        intro c hc
        rw [h3 c hc, hso]
      cases r3 with
      | error e =>
        rw [doJob_eq_of_pushCommit_error env o ref tree e tr1 tr2 tr3 hg ht hp]
        intro c hc
        rcases List.mem_append.mp hc with h | h
        · rcases List.mem_append.mp h with h | h
          · exact h1m c h
          · exact h2m c h
        · exact h3m c h
      | ok u =>
        cases u
        rcases hc4 : pullRequestCommand.createPR env o with ⟨r4, tr4⟩
        have h4 := createPR_trace_owner env o
        rw [hc4] at h4
        rw [doJob_eq_of_success env o ref tree tr1 tr2 tr3 hg ht hp, hc4]
        intro c hc
        rcases List.mem_append.mp hc with h | h
        · rcases List.mem_append.mp h with h | h
          · rcases List.mem_append.mp h with h | h
            · exact h1m c h
            · exact h2m c h
          · exact h3m c h
        · rw [h4 c h, hpo]

theorem runJobsCode_trace_owner (env : Env)
    (opts : List pullRequestCreationOptions)
    (hopts : ∀ o ∈ opts, o.sourceOwner = "mercadolibre" ∧
      o.pullRequestOwner = "mercadolibre") :
    ∀ c ∈ (runJobsCode env opts).2.1, c.ownerOf = some "mercadolibre" := by
  induction opts with
  | nil => simp [runJobsCode]
  | cons o rest ih =>
    rcases hd : pullRequestCommand.doJob env o with ⟨res, tr⟩
    have ho := hopts o (List.mem_cons_self o rest)
    have hdp := doJob_trace_owner env o ho.1 ho.2
    rw [hd] at hdp
    cases res with
    | ok url =>
      rcases hs : runJobsCode env rest with ⟨us, trs, err⟩
      have ih2 := ih (fun q hq => hopts q (List.mem_cons_of_mem o hq))
      rw [hs] at ih2
      simp only [runJobsCode, hd, hs]
      intro c hc
      rcases List.mem_append.mp hc with h | h
      · exact hdp c h
      · exact ih2 c h
    | error e =>
      simp only [runJobsCode, hd]
      exact hdp

/-- C10: every remote call of a batch run is either the owner-less
authenticated-user lookup or addressed to the fixed repository owner
`"mercadolibre"`, for every batch description — destinations choose only
repository and base branch, never the owner. -/
theorem C10_owner (env : Env) (b : BatchPullRequestOption) :
    ∀ c ∈ (BatchPullRequestCommand.Do env b).2.2,
      c.ownerOf = none ∨ c.ownerOf = some "mercadolibre" := by
  cases hu : env.usersGet with
  | error e =>
    unfold BatchPullRequestCommand.Do
    simp [hu, RemoteCall.ownerOf]
  | ok u =>
    rw [Do_eq_runJobsCode env b u hu]
    intro c hc
    rcases List.mem_cons.mp hc with h | h
    · subst h
      exact Or.inl rfl
    · right
      refine runJobsCode_trace_owner env _ ?_ c h
      intro o ho
      simp only [BatchPullRequestOption.rangeOptionsList, List.mem_map] at ho
      rcases ho with ⟨v, hv, hvo⟩
      rw [← hvo]
      exact ⟨rfl, rfl⟩

/-- C10 witness: a concrete reference-lookup call of the batch run is
addressed to `"mercadolibre"`. -/
theorem C10_owner_witness :
    (RemoteCall.gitGetRef "mercadolibre" "r1" "refs/heads/feature/x" ∈
      (BatchPullRequestCommand.Do envAllOk batchB).2.2) ∧
    ((RemoteCall.gitGetRef "mercadolibre" "r1" "refs/heads/feature/x").ownerOf =
        none ∨
     (RemoteCall.gitGetRef "mercadolibre" "r1" "refs/heads/feature/x").ownerOf =
        some "mercadolibre") := by
  have hmem : RemoteCall.gitGetRef "mercadolibre" "r1" "refs/heads/feature/x" ∈
      (BatchPullRequestCommand.Do envAllOk batchB).2.2 := by decide
  exact ⟨hmem, C10_owner envAllOk batchB _ hmem⟩
